import Mathlib

/-!
A shallow embedding of the phase execution engine of
`arago/common/processor/processor.py` (class `Processor`), together with
theorems about its behaviour.

Modelling conventions:
* An issue is a Python dict; we embed it as an association list from
  string keys to values (`Val` covers the value shapes the engine itself
  inspects: strings and integers).
* A plugin is a record: `pid` stands for Python object identity (tuple
  equality of `(plugin, context)` pairs compares plugin objects by
  identity), `name` is `type(x).__name__` (used only by the arbiter
  label matching), `test` returns the list of contexts (a raised
  exception is `Except.error ()`; a falsy result is the empty list; a
  single truthy non-list context is the singleton list), and `process`
  returns the issue as mutated together with `true`, or the partially
  mutated issue together with `false` when it raised.
* Contexts are strings, so Python's `str(y)` is the identity.
* Both `while` loops of `apply_all_plugins_on_value` take explicit fuel;
  running out of fuel is the distinguished outcome `EngineError.outOfFuel`.
* Every observable action is recorded in a trace of `Event`s, which the
  engine returns even when it ends in an uncaught exception.
-/

inductive Val where
  | str : String → Val
  | int : Int → Val
deriving DecidableEq, Repr

abbrev Issue := List (String × Val)

/-- Dict read: the first binding of the key wins. -/
def Issue.get : Issue → String → Option Val
  | [], _ => none
  | p :: rest, k => if p.1 == k then some p.2 else Issue.get rest k

/-- Dict write: replace an existing binding in place, else append. -/
def Issue.set : Issue → String → Val → Issue
  | [], k, v => [(k, v)]
  | p :: rest, k, v =>
    if p.1 == k then (k, v) :: rest else p :: Issue.set rest k v

abbrev Ctx := String

structure Plugin where
  pid : Nat
  name : String
  test : Issue → Except Unit (List Ctx)
  process : Issue → Ctx → Issue × Bool

/-- A candidate `(plugin, context)` pair. -/
abbrev Cand := Plugin × Ctx

/-- Tuple equality of `(plugin, context)` pairs: plugin objects compare by
identity (modelled by `pid`), contexts by value. -/
def candEq (a b : Cand) : Bool :=
  a.1.pid == b.1.pid && a.2 == b.2

/-- Python's `str.endswith`, embedded structurally (code-point suffix). -/
def endsWithStr (s suffix : String) : Bool :=
  suffix.data.isSuffixOf s.data

/-- Python's `decision.split(':')`: split on every colon. -/
def splitColon (s : String) : List String :=
  (s.data.splitOn ':').map (fun cs => String.mk cs)

/-- Python's `<=` on strings: lexicographic by code point. -/
def leChars : List Char → List Char → Bool
  | [], _ => true
  | _ :: _, [] => false
  | a :: as, b :: bs =>
    if a < b then true else if b < a then false else leChars as bs

def leStr (a b : String) : Bool := leChars a.data b.data

/-- Insert into a sorted list (helper of `sortStrings`). -/
def insertSorted (s : String) : List String → List String
  | [] => [s]
  | x :: xs => if leStr s x then s :: x :: xs else x :: insertSorted s xs

/-- Python's `sorted` on strings (insertion sort, stable). -/
def sortStrings : List String → List String
  | [] => []
  | x :: xs => insertSorted x (sortStrings xs)

/-- The external decision service (`self.ds`): `decide` receives the issue
and the stringified candidate labels and returns the chosen label. -/
structure Ds where
  decide : Issue → List String → String

structure Processor where
  plugins : List (String × List Plugin)
  ds : Option Ds
  auto_reward : Int

/-- Observable actions of the engine, in execution order. -/
inductive Event where
  /-- `execute_plugin_with_context` ran `plugin.process`; `ok = false`
  records a swallowed exception. -/
  | exec (pid : Nat) (ctx : Ctx) (ok : Bool)
  /-- `plugin.test` raised during `test_plugins_on_value`. -/
  | testErr (pid : Nat)
  /-- `self.ds.decide` was invoked with these labels and returned `chosen`. -/
  | decide (labels : List String) (chosen : String)
  /-- The outer loop entered a phase (`directory`). -/
  | phase (dir : String)
  /-- `issue['_reward'] += self.auto_reward` ran, leaving this value. -/
  | reward (value : Int)
deriving DecidableEq, Repr

/-- Uncaught exceptions of the engine (these propagate out of
`apply_all_plugins_on_value`, aborting the pass). -/
inductive EngineError where
  /-- `possible[0]` on an empty list (IndexError). -/
  | emptyPossible
  /-- `decision.split(':')` did not produce exactly two parts (ValueError). -/
  | splitError (decision : String)
  /-- The arbiter's label resolved to no candidate:
  `[(x, y) for ...][0]` raised IndexError. -/
  | noMatch (decision : String)
  /-- `issue['_current_phase']` raised KeyError. -/
  | phaseKeyMissing
  /-- `issue['_reward'] += ...` raised (key missing or non-numeric value). -/
  | rewardError
  /-- The modelling fuel for one of the two `while` loops ran out. -/
  | outOfFuel
deriving DecidableEq, Repr

/-- `Processor.test_plugins_on_value`: for each plugin in order, collect
`(plugin, context)` pairs from `plugin.test(issue)`; a raised exception is
logged and contributes nothing. Returns the candidates and the trace. -/
def test_plugins_on_value (issue : Issue) : List Plugin → List Cand × List Event
  | [] => ([], [])
  | plugin :: rest =>
    let r := test_plugins_on_value issue rest
    match plugin.test issue with
    | .ok ctxs => (ctxs.map (fun c => (plugin, c)) ++ r.1, r.2)
    | .error _ => (r.1, Event.testErr plugin.pid :: r.2)

/-- `Processor.execute_plugin_with_context`: run `plugin.process`,
swallowing any exception. Returns the (possibly partially) mutated issue
and the trace event. -/
def execute_plugin_with_context (issue : Issue) (plugin : Plugin) (ctx : Ctx) :
    Issue × Event :=
  let r := plugin.process issue ctx
  (r.1, Event.exec plugin.pid ctx r.2)

/-- The loop `for a in any_executed: if a in possible: possible.remove(a)`:
remove from `possible` the first occurrence of each already-executed pair. -/
def removeExecuted (tested : List Cand) (any_executed : List Cand) : List Cand :=
  any_executed.foldl (fun ps a => ps.eraseP (fun b => candEq a b)) tested

/-- `Processor.decide_on_plugin`. Returns the chosen candidate and the
trace (a `decide` event when the decision service was consulted). -/
def decide_on_plugin (ds : Option Ds) (issue : Issue) (possible : List Cand) :
    Except EngineError (Cand × List Event) :=
  match possible with
  | [] => Except.error EngineError.emptyPossible
  | p0 :: _ =>
    match ds with
    | none => Except.ok (p0, [])
    | some d =>
      let possible_kis := possible.map (fun pc => pc.1.name ++ ":" ++ pc.2)
      let decision := d.decide issue possible_kis
      match splitColon decision with
      | [best_plugin, best_context] =>
        match possible.filter
            (fun pc => pc.1.name == best_plugin && pc.2 == best_context) with
        | [] => Except.error (EngineError.noMatch decision)
        | q :: _ => Except.ok (q, [Event.decide possible_kis decision])
      | _ => Except.error (EngineError.splitError decision)

/-- `for p in possible: self.execute_plugin_with_context(...); any_executed.append(p)`
(the `-parallel` branch). Returns the mutated issue, the grown
`any_executed` and the trace. -/
def execAllCands (issue : Issue) (any_executed : List Cand) :
    List Cand → Issue × List Cand × List Event
  | [] => (issue, any_executed, [])
  | p :: rest =>
    let r := execute_plugin_with_context issue p.1 p.2
    let s := execAllCands r.1 (any_executed ++ [p]) rest
    (s.1, s.2.1, r.2 :: s.2.2)

/-- The inner `while True` loop of `apply_all_plugins_on_value`, for phase
`directory` with the phase's plugin list `subplugins` and the accumulated
`any_executed` list. Fuel bounds the number of iterations. -/
def roundLoop (ds : Option Ds) (directory : String) (subplugins : List Plugin) :
    Nat → Issue → List Cand → List Event × Except EngineError Issue
  | 0, _, _ => ([], Except.error EngineError.outOfFuel)
  | fuel + 1, issue, any_executed =>
    let len_already_executed := any_executed.length
    let t := test_plugins_on_value issue subplugins
    match removeExecuted t.1 any_executed with
    | [] => (t.2, Except.ok issue)
    | p0 :: ps =>
      let possible := p0 :: ps
      if endsWithStr directory "-parallel" then
        let r := execAllCands issue any_executed possible
        let evs := t.2 ++ r.2.2
        match Issue.get r.1 "_current_phase" with
        | none => (evs, Except.error EngineError.phaseKeyMissing)
        | some cur =>
          if cur ≠ Val.str directory then (evs, Except.ok r.1)
          else if r.2.1.length = len_already_executed then (evs, Except.ok r.1)
          else
            let rest := roundLoop ds directory subplugins fuel r.1 r.2.1
            (evs ++ rest.1, rest.2)
      else if endsWithStr directory "-alternative" then
        match decide_on_plugin ds issue possible with
        | Except.error e => (t.2, Except.error e)
        | Except.ok (p, evD) =>
          let r := execute_plugin_with_context issue p.1 p.2
          (t.2 ++ evD ++ [r.2], Except.ok r.1)
      else
        let p := possible.getLast (List.cons_ne_nil p0 ps)
        let r := execute_plugin_with_context issue p.1 p.2
        let any' := any_executed ++ [p]
        let evs := t.2 ++ [r.2]
        match Issue.get r.1 "_current_phase" with
        | none => (evs, Except.error EngineError.phaseKeyMissing)
        | some cur =>
          if cur ≠ Val.str directory then (evs, Except.ok r.1)
          else if any'.length = len_already_executed then (evs, Except.ok r.1)
          else
            let rest := roundLoop ds directory subplugins fuel r.1 any'
            (evs ++ rest.1, rest.2)

/-- One iteration of the outer `while current_dirno < len(dirs)` loop:
enter phase `directory`, run the inner loop with a fresh `any_executed`,
add the reward, and compute the next phase index. -/
def phaseStep (proc : Processor) (dirs : List String) (current_dirno : Nat)
    (directory : String) (fuelI : Nat) (issue : Issue) :
    List Event × Except EngineError (Issue × Nat) :=
  let issue := issue.set "_current_phase" (Val.str directory)
  let subplugins :=
    ((proc.plugins.find? (fun pr => pr.1 == directory)).map (·.2)).getD []
  let r := roundLoop proc.ds directory subplugins fuelI issue []
  let evs := Event.phase directory :: r.1
  match r.2 with
  | Except.error e => (evs, Except.error e)
  | Except.ok issue' =>
    match Issue.get issue' "_reward" with
    | some (Val.int n) =>
      let issue'' := issue'.set "_reward" (Val.int (n + proc.auto_reward))
      let evs := evs ++ [Event.reward (n + proc.auto_reward)]
      match Issue.get issue'' "_current_phase" with
      | none => (evs, Except.error EngineError.phaseKeyMissing)
      | some cur =>
        if cur = Val.str directory then
          (evs, Except.ok (issue'', current_dirno + 1))
        else
          let next :=
            match cur with
            | Val.str s => (dirs.findIdx? (fun d => d == s)).getD (current_dirno + 1)
            | _ => current_dirno + 1
          (evs, Except.ok (issue'', next))
    | _ => (evs, Except.error EngineError.rewardError)

/-- The outer `while current_dirno < len(dirs)` loop. -/
def outerLoop (proc : Processor) (dirs : List String) (fuelI : Nat) :
    Nat → Nat → Issue → List Event × Except EngineError Issue
  | 0, _, _ => ([], Except.error EngineError.outOfFuel)
  | fuelO + 1, current_dirno, issue =>
    match dirs[current_dirno]? with
    | none => ([], Except.ok issue)
    | some directory =>
      let r := phaseStep proc dirs current_dirno directory fuelI issue
      match r.2 with
      | Except.error e => (r.1, Except.error e)
      | Except.ok s =>
        let rest := outerLoop proc dirs fuelI fuelO s.2 s.1
        (r.1 ++ rest.1, rest.2)

/-- `Processor.apply_all_plugins_on_value`: sort the phase names, zero the
reward, and run the outer loop from index 0. -/
def apply_all_plugins_on_value (proc : Processor) (fuelO fuelI : Nat)
    (issue : Issue) : List Event × Except EngineError Issue :=
  let dirs := sortStrings (proc.plugins.map Prod.fst)
  let issue := issue.set "_reward" (Val.int 0)
  outerLoop proc dirs fuelI fuelO 0 issue

/-- The `exec` events of a trace, projected to `(pid, context, ok)`. -/
def execEvents (evs : List Event) : List (Nat × Ctx × Bool) :=
  evs.filterMap fun e =>
    match e with
    | Event.exec pid c ok => some (pid, c, ok)
    | _ => none

/-- How many `act` (process) calls a trace records. -/
def execCount (evs : List Event) : Nat := (execEvents evs).length

/-- The `decide` events of a trace (invocations of the decision service). -/
def decideEvents (evs : List Event) : List (List String × String) :=
  evs.filterMap fun e =>
    match e with
    | Event.decide ls c => some (ls, c)
    | _ => none

/-- The `reward` events of a trace (values after each per-phase addition). -/
def rewardEvents (evs : List Event) : List Int :=
  evs.filterMap fun e =>
    match e with
    | Event.reward v => some v
    | _ => none

/-- The `phase` events of a trace (phase invocations, in order). -/
def phaseEvents (evs : List Event) : List String :=
  evs.filterMap fun e =>
    match e with
    | Event.phase d => some d
    | _ => none

/-- Projection of a trace onto the executed `(pid, context)` pairs. -/
def execPids (evs : List Event) : List (Nat × Ctx) :=
  (execEvents evs).map (fun e => (e.1, e.2.1))

theorem Issue.get_set_self (i : Issue) (k : String) (v : Val) :
    Issue.get (Issue.set i k v) k = some v := by
  induction i with
  | nil => simp [Issue.set, Issue.get]
  | cons hd tl ih =>
    by_cases h : hd.1 = k <;> simp [Issue.set, Issue.get, h, ih]

theorem Issue.get_set_ne (i : Issue) (k k' : String) (v : Val) (h : k' ≠ k) :
    Issue.get (Issue.set i k v) k' = Issue.get i k' := by
  induction i with
  | nil => simp [Issue.set, Issue.get, Ne.symm h]
  | cons hd tl ih =>
    by_cases hk : hd.1 = k
    · simp [Issue.set, Issue.get, hk, Ne.symm h, h]
    · by_cases hk' : hd.1 = k' <;> simp [Issue.set, Issue.get, hk, hk', ih, h]

theorem execEvents_append (a b : List Event) :
    execEvents (a ++ b) = execEvents a ++ execEvents b := by
  simp [execEvents, List.filterMap_append]

theorem execPids_append (a b : List Event) :
    execPids (a ++ b) = execPids a ++ execPids b := by
  simp [execPids, execEvents_append]

theorem decideEvents_append (a b : List Event) :
    decideEvents (a ++ b) = decideEvents a ++ decideEvents b := by
  simp [decideEvents, List.filterMap_append]

theorem rewardEvents_append (a b : List Event) :
    rewardEvents (a ++ b) = rewardEvents a ++ rewardEvents b := by
  simp [rewardEvents, List.filterMap_append]

theorem phaseEvents_append (a b : List Event) :
    phaseEvents (a ++ b) = phaseEvents a ++ phaseEvents b := by
  simp [phaseEvents, List.filterMap_append]

/-- The trace of `test_plugins_on_value` records only test failures:
it contains no `exec` events. -/
theorem execEvents_test (issue : Issue) (ps : List Plugin) :
    execEvents (test_plugins_on_value issue ps).2 = [] := by
  induction ps with
  | nil => rfl
  | cons p rest ih =>
    simp only [test_plugins_on_value]
    cases p.test issue <;> simp [execEvents, ih] <;>
      simpa [execEvents] using ih

/-- Every candidate produced by `test_plugins_on_value` pairs a plugin of
the tested list with one of its contexts. -/
theorem test_mem (issue : Issue) (ps : List Plugin) :
    ∀ q ∈ (test_plugins_on_value issue ps).1, q.1 ∈ ps := by
  induction ps with
  | nil => simp [test_plugins_on_value]
  | cons p rest ih =>
    intro q hq
    simp only [test_plugins_on_value] at hq
    cases hts : p.test issue with
    | ok ctxs =>
      rw [hts] at hq
      simp only [List.mem_append] at hq
      rcases hq with hq | hq
      · rcases List.mem_map.mp hq with ⟨c, _, rfl⟩
        exact List.mem_cons_self _ _
      · exact List.mem_cons_of_mem _ (ih q hq)
    | error e =>
      rw [hts] at hq
      exact List.mem_cons_of_mem _ (ih q hq)

/-- `removeExecuted` with an empty already-run list is the identity. -/
theorem removeExecuted_nil (t : List Cand) : removeExecuted t [] = t := rfl

/-- `removeExecuted` only removes candidates: the result is a sublist. -/
theorem removeExecuted_sublist (t : List Cand) (a : List Cand) :
    (removeExecuted t a).Sublist t := by
  induction a generalizing t with
  | nil => exact List.Sublist.refl t
  | cons hd tl ih =>
    simp only [removeExecuted, List.foldl]
    exact List.Sublist.trans (ih (t.eraseP (fun b => candEq hd b)))
      (List.eraseP_sublist t)

/-- `execAllCands` appends exactly the executed batch to `any_executed`. -/
theorem execAllCands_any (l : List Cand) :
    ∀ issue any, (execAllCands issue any l).2.1 = any ++ l := by
  induction l with
  | nil => simp [execAllCands]
  | cons p rest ih =>
    intro issue any
    simp [execAllCands, ih]

/-- The parallel batch executes every candidate it is given, exactly once,
in order (whether or not individual `process` calls raise). -/
theorem execAllCands_pids (l : List Cand) :
    ∀ issue any, execPids (execAllCands issue any l).2.2 =
      l.map (fun p => (p.1.pid, p.2)) := by
  induction l with
  | nil => intro issue any; rfl
  | cons p rest ih =>
    intro issue any
    have h := ih (execute_plugin_with_context issue p.1 p.2).1 (any ++ [p])
    simp only [execPids, execEvents, execute_plugin_with_context] at h ⊢
    simp [execAllCands, execute_plugin_with_context, h]

/-- Without a decision service, `decide_on_plugin` returns `possible[0]`
and consults nobody. -/
theorem decide_on_plugin_none (issue : Issue) (p0 : Cand) (ps : List Cand) :
    decide_on_plugin none issue (p0 :: ps) = Except.ok (p0, []) := rfl

/-- A successfully decided candidate is one of the current candidates. -/
theorem decide_on_plugin_mem (ds : Option Ds) (issue : Issue)
    (possible : List Cand) (q : Cand) (evs : List Event)
    (h : decide_on_plugin ds issue possible = Except.ok (q, evs)) :
    q ∈ possible := by
  cases possible with
  | nil => simp [decide_on_plugin] at h
  | cons p0 ps =>
    cases ds with
    | none =>
      simp [decide_on_plugin] at h
      simp [h.1]
    | some d =>
      simp only [decide_on_plugin] at h
      split at h
      · rename_i bp bc hsplit
        split at h
        · simp at h
        · rename_i q' tl hq
          simp only [Except.ok.injEq, Prod.mk.injEq] at h
          obtain ⟨rfl, -⟩ := h
          have hmem : q' ∈ List.filter
              (fun pc => pc.1.name == bp && pc.2 == bc) (p0 :: ps) := by
            rw [hq]
            exact List.mem_cons_self _ _
          exact List.mem_of_mem_filter hmem
      · simp at h

/-- The trace of a successful `decide_on_plugin` holds no `exec` events. -/
theorem decide_on_plugin_no_exec (ds : Option Ds) (issue : Issue)
    (possible : List Cand) (q : Cand) (evs : List Event)
    (h : decide_on_plugin ds issue possible = Except.ok (q, evs)) :
    execEvents evs = [] := by
  cases possible with
  | nil => simp [decide_on_plugin] at h
  | cons p0 ps =>
    cases ds with
    | none =>
      simp [decide_on_plugin] at h
      simp [execEvents, h.2]
    | some d =>
      simp only [decide_on_plugin] at h
      split at h
      · split at h
        · simp at h
        · simp only [Except.ok.injEq, Prod.mk.injEq] at h
          rw [← h.2]
          rfl
      · simp at h

/-- A round that builds no candidates ends the phase invocation. -/
theorem roundLoop_empty (ds : Option Ds) (directory : String)
    (subplugins : List Plugin) (fuel : Nat) (issue : Issue)
    (any_executed : List Cand)
    (hrem : removeExecuted (test_plugins_on_value issue subplugins).1
      any_executed = []) :
    roundLoop ds directory subplugins (fuel + 1) issue any_executed =
      ((test_plugins_on_value issue subplugins).2, Except.ok issue) := by
  simp only [roundLoop, hrem]

/-- Unfolding of one round of an `-alternative` phase. -/
theorem roundLoop_alt (ds : Option Ds) (directory : String)
    (subplugins : List Plugin) (fuel : Nat) (issue : Issue)
    (any_executed : List Cand) (p0 : Cand) (ps : List Cand)
    (hrem : removeExecuted (test_plugins_on_value issue subplugins).1
      any_executed = p0 :: ps)
    (halt : endsWithStr directory "-alternative" = true)
    (hpar : endsWithStr directory "-parallel" = false) :
    roundLoop ds directory subplugins (fuel + 1) issue any_executed =
      (match decide_on_plugin ds issue (p0 :: ps) with
        | Except.error e =>
          ((test_plugins_on_value issue subplugins).2, Except.error e)
        | Except.ok pev =>
          ((test_plugins_on_value issue subplugins).2 ++ pev.2 ++
            [Event.exec pev.1.1.pid pev.1.2
              (pev.1.1.process issue pev.1.2).2],
           Except.ok (pev.1.1.process issue pev.1.2).1)) := by
  simp only [roundLoop, hrem, hpar, halt]
  cases decide_on_plugin ds issue (p0 :: ps) with
  | error e => rfl
  | ok pev => simp [execute_plugin_with_context]

/-- Unfolding of one round of a `-parallel` phase. -/
theorem roundLoop_par (ds : Option Ds) (directory : String)
    (subplugins : List Plugin) (fuel : Nat) (issue : Issue)
    (any_executed : List Cand) (p0 : Cand) (ps : List Cand)
    (hrem : removeExecuted (test_plugins_on_value issue subplugins).1
      any_executed = p0 :: ps)
    (hpar : endsWithStr directory "-parallel" = true) :
    roundLoop ds directory subplugins (fuel + 1) issue any_executed =
      (let r := execAllCands issue any_executed (p0 :: ps)
       let evs := (test_plugins_on_value issue subplugins).2 ++ r.2.2
       match Issue.get r.1 "_current_phase" with
       | none => (evs, Except.error EngineError.phaseKeyMissing)
       | some cur =>
         if cur ≠ Val.str directory then (evs, Except.ok r.1)
         else if r.2.1.length = any_executed.length then (evs, Except.ok r.1)
         else
           (evs ++ (roundLoop ds directory subplugins fuel r.1 r.2.1).1,
            (roundLoop ds directory subplugins fuel r.1 r.2.1).2)) := by
  simp only [roundLoop, hrem, hpar]
  simp

/-- Unfolding of one round of a default (exhaustive-sequential) phase. -/
theorem roundLoop_default (ds : Option Ds) (directory : String)
    (subplugins : List Plugin) (fuel : Nat) (issue : Issue)
    (any_executed : List Cand) (p0 : Cand) (ps : List Cand)
    (hrem : removeExecuted (test_plugins_on_value issue subplugins).1
      any_executed = p0 :: ps)
    (hpar : endsWithStr directory "-parallel" = false)
    (halt : endsWithStr directory "-alternative" = false) :
    roundLoop ds directory subplugins (fuel + 1) issue any_executed =
      (let p := (p0 :: ps).getLast (List.cons_ne_nil p0 ps)
       let r := p.1.process issue p.2
       let evs := (test_plugins_on_value issue subplugins).2 ++
         [Event.exec p.1.pid p.2 r.2]
       match Issue.get r.1 "_current_phase" with
       | none => (evs, Except.error EngineError.phaseKeyMissing)
       | some cur =>
         if cur ≠ Val.str directory then (evs, Except.ok r.1)
         else if any_executed.length + 1 = any_executed.length then
           (evs, Except.ok r.1)
         else
           (evs ++ (roundLoop ds directory subplugins fuel r.1
             (any_executed ++ [p])).1,
            (roundLoop ds directory subplugins fuel r.1
              (any_executed ++ [p])).2)) := by
  simp only [roundLoop, hrem, hpar, halt, execute_plugin_with_context,
    List.length_append, List.length_cons, List.length_nil, Nat.zero_add]
  simp

theorem execCount_append (a b : List Event) :
    execCount (a ++ b) = execCount a + execCount b := by
  simp [execCount, execEvents_append]

theorem execCount_test (issue : Issue) (ps : List Plugin) :
    execCount (test_plugins_on_value issue ps).2 = 0 := by
  simp [execCount, execEvents_test]

theorem execCount_exec_single (pid : Nat) (c : Ctx) (ok : Bool) :
    execCount [Event.exec pid c ok] = 1 := rfl

/-- C3: for every invocation of an `-alternative` phase, at most one
plugin `process` call occurs: none when the built candidate set is empty,
exactly one when it is not and the invocation returns normally. -/
theorem alternative_policy_at_most_one_act
    (ds : Option Ds) (directory : String) (subplugins : List Plugin)
    (fuel : Nat) (issue : Issue) (any_executed : List Cand)
    (halt : endsWithStr directory "-alternative" = true)
    (hpar : endsWithStr directory "-parallel" = false) :
    (execCount (roundLoop ds directory subplugins (fuel + 1) issue
        any_executed).1 = 0 ∨
      execCount (roundLoop ds directory subplugins (fuel + 1) issue
        any_executed).1 = 1) ∧
    (removeExecuted (test_plugins_on_value issue subplugins).1 any_executed
        = [] →
      execCount (roundLoop ds directory subplugins (fuel + 1) issue
        any_executed).1 = 0) ∧
    (∀ p0 ps i',
      removeExecuted (test_plugins_on_value issue subplugins).1 any_executed
        = p0 :: ps →
      (roundLoop ds directory subplugins (fuel + 1) issue any_executed).2
        = Except.ok i' →
      execCount (roundLoop ds directory subplugins (fuel + 1) issue
        any_executed).1 = 1) := by
  cases hrem : removeExecuted (test_plugins_on_value issue subplugins).1
      any_executed with
  | nil =>
    rw [roundLoop_empty ds directory subplugins fuel issue any_executed hrem]
    refine ⟨Or.inl ?_, fun _ => ?_, fun p0 ps i' hc _ => ?_⟩
    · exact execCount_test issue subplugins
    · exact execCount_test issue subplugins
    · cases hc
  | cons p0 ps =>
    rw [roundLoop_alt ds directory subplugins fuel issue any_executed p0 ps
      hrem halt hpar]
    cases hdec : decide_on_plugin ds issue (p0 :: ps) with
    | error e =>
      refine ⟨Or.inl ?_, fun hc => ?_, fun p0' ps' i' _ hok => ?_⟩
      · exact execCount_test issue subplugins
      · cases hc
      · simp at hok
    | ok pev =>
      obtain ⟨p, evD⟩ := pev
      have hz : execCount evD = 0 := by
        simp [execCount, decide_on_plugin_no_exec ds issue (p0 :: ps) p evD hdec]
      refine ⟨Or.inr ?_, fun hc => ?_, fun p0' ps' i' _ _ => ?_⟩
      · simp [execCount_append, execCount_test, hz, execCount_exec_single]
      · cases hc
      · simp [execCount_append, execCount_test, hz, execCount_exec_single]

/-- A plugin that always matches context "a" and whose act jumps the issue
to phase "zz" (used as a concrete witness input). -/
def jumpPlugin : Plugin :=
  ⟨1, "Jump", fun _ => Except.ok ["a"],
    fun i _ => (Issue.set i "_current_phase" (Val.str "zz"), true)⟩

/-- A plugin that always matches context "b" and whose act records a
marker field (used as a concrete witness input). -/
def markPlugin : Plugin :=
  ⟨2, "Mark", fun _ => Except.ok ["b"],
    fun i _ => (Issue.set i "ranMark" (Val.int 1), true)⟩

/-- Witness for C3 at a concrete input: one plugin, one candidate, no
decision service. -/
theorem alternative_policy_at_most_one_act_witness :
    (execCount (roundLoop none "q-alternative" [markPlugin] (0 + 1) []
        []).1 = 0 ∨
      execCount (roundLoop none "q-alternative" [markPlugin] (0 + 1) []
        []).1 = 1) ∧
    (removeExecuted (test_plugins_on_value [] [markPlugin]).1 [] = [] →
      execCount (roundLoop none "q-alternative" [markPlugin] (0 + 1) []
        []).1 = 0) ∧
    (∀ p0 ps i',
      removeExecuted (test_plugins_on_value [] [markPlugin]).1 [] = p0 :: ps →
      (roundLoop none "q-alternative" [markPlugin] (0 + 1) [] []).2
        = Except.ok i' →
      execCount (roundLoop none "q-alternative" [markPlugin] (0 + 1) []
        []).1 = 1) :=
  alternative_policy_at_most_one_act none "q-alternative" [markPlugin] 0 []
    [] (by decide) (by decide)

/-- The first candidate produced by `test_plugins_on_value` is the first
context of the earliest plugin (in list order) that matches. -/
theorem test_plugins_head (issue : Issue) (ps1 : List Plugin) (q : Plugin)
    (ps2 : List Plugin) (c : Ctx) (cs : List Ctx)
    (h1 : ∀ p ∈ ps1, p.test issue = Except.ok [] ∨
      p.test issue = Except.error ())
    (hq : q.test issue = Except.ok (c :: cs)) :
    ∃ rest, (test_plugins_on_value issue (ps1 ++ q :: ps2)).1 =
      (q, c) :: rest := by
  induction ps1 with
  | nil =>
    refine ⟨cs.map (fun c' => (q, c')) ++
      (test_plugins_on_value issue ps2).1, ?_⟩
    simp [test_plugins_on_value, hq]
  | cons p rest ih =>
    have hp := h1 p (List.mem_cons_self _ _)
    have ih' := ih (fun p' hp' => h1 p' (List.mem_cons_of_mem _ hp'))
    obtain ⟨tl, htl⟩ := ih'
    rcases hp with hp | hp <;>
      exact ⟨tl, by simp [test_plugins_on_value, hp, htl]⟩

/-- C10: with no decision service configured, a nonempty `-alternative`
round executes `possible[0]`: the first matching context of the earliest
matching plugin in declaration order. -/
theorem alternative_no_ds_executes_first
    (directory : String) (subplugins : List Plugin) (fuel : Nat)
    (issue : Issue) (p0 : Cand) (ps : List Cand)
    (halt : endsWithStr directory "-alternative" = true)
    (hpar : endsWithStr directory "-parallel" = false)
    (hne : (test_plugins_on_value issue subplugins).1 = p0 :: ps) :
    roundLoop none directory subplugins (fuel + 1) issue [] =
      ((test_plugins_on_value issue subplugins).2 ++
        [Event.exec p0.1.pid p0.2 (p0.1.process issue p0.2).2],
       Except.ok (p0.1.process issue p0.2).1) ∧
    (∀ ps1 q ps2 c cs, subplugins = ps1 ++ q :: ps2 →
      (∀ p ∈ ps1, p.test issue = Except.ok [] ∨
        p.test issue = Except.error ()) →
      q.test issue = Except.ok (c :: cs) →
      p0 = (q, c)) := by
  have hrem : removeExecuted (test_plugins_on_value issue subplugins).1 []
      = p0 :: ps := by
    rw [removeExecuted_nil, hne]
  constructor
  · rw [roundLoop_alt none directory subplugins fuel issue [] p0 ps hrem
      halt hpar]
    simp [decide_on_plugin]
  · intro ps1 q ps2 c cs hsub h1 hq
    obtain ⟨rest, hrest⟩ := test_plugins_head issue ps1 q ps2 c cs h1 hq
    rw [hsub, hrest] at hne
    exact (List.cons.injEq _ _ _ _ ▸ hne).1.symm

/-- Witness for C10 at a concrete input. -/
theorem alternative_no_ds_executes_first_witness :
    roundLoop none "q-alternative" [markPlugin] (0 + 1) [] [] =
      ((test_plugins_on_value [] [markPlugin]).2 ++
        [Event.exec markPlugin.pid "b" (markPlugin.process [] "b").2],
       Except.ok (markPlugin.process [] "b").1) ∧
    (∀ ps1 q ps2 c cs, [markPlugin] = ps1 ++ q :: ps2 →
      (∀ p ∈ ps1, p.test [] = Except.ok [] ∨
        p.test [] = Except.error ()) →
      q.test [] = Except.ok (c :: cs) →
      ((markPlugin, "b") : Cand) = (q, c)) :=
  alternative_no_ds_executes_first "q-alternative" [markPlugin] 0 []
    (markPlugin, "b") [] (by decide) (by decide) rfl

/-- A decision service that echoes the first offered label (used as a
concrete input). -/
def dsEcho : Ds := ⟨fun _ labels => labels.headD ""⟩

/-- An alternative-policy processor with a decision service and a single
plugin with a single matching context. -/
def procAltEcho : Processor := ⟨[("q-alternative", [markPlugin])], some dsEcho, 2⟩

/-- C2 counterexample: running `procAltEcho` on the empty issue builds a
candidate set with exactly one candidate, yet the decision service is
invoked (the trace holds a `decide` event with the singleton label list
`["Mark:b"]`) — contradicting the claim that the Arbiter is consulted only
when there is more than one candidate. -/
theorem arbiter_invoked_for_singleton_candidate :
    (test_plugins_on_value
      [("_reward", Val.int 0), ("_current_phase", Val.str "q-alternative")]
      [markPlugin]).1.length = 1 ∧
    decideEvents (apply_all_plugins_on_value procAltEcho 2 2 []).1 =
      [(["Mark:b"], "Mark:b")] := ⟨rfl, rfl⟩

/-- C2 amended: in a nonempty `-alternative` round the decision service is
consulted exactly when one is configured, regardless of candidate count
(even for a single candidate, its label list is offered); with none
configured, `possible[0]` is chosen directly with no consultation. -/
theorem arbiter_invocation_condition (issue : Issue) (p0 : Cand)
    (ps : List Cand) :
    decide_on_plugin none issue (p0 :: ps) = Except.ok (p0, []) ∧
    (∀ d : Ds,
      (∃ e, decide_on_plugin (some d) issue (p0 :: ps) = Except.error e) ∨
      (∃ q, decide_on_plugin (some d) issue (p0 :: ps) =
        Except.ok (q, [Event.decide
          ((p0 :: ps).map (fun pc => pc.1.name ++ ":" ++ pc.2))
          (d.decide issue
            ((p0 :: ps).map (fun pc => pc.1.name ++ ":" ++ pc.2)))]))) := by
  refine ⟨rfl, fun d => ?_⟩
  simp only [decide_on_plugin]
  split
  · split
    · exact Or.inl ⟨_, rfl⟩
    · exact Or.inr ⟨_, rfl⟩
  · exact Or.inl ⟨_, rfl⟩

/-- Witness for the amended C2 at a concrete input (no hypotheses beyond
the instantiation). -/
theorem arbiter_invocation_condition_witness :
    decide_on_plugin none [] [(markPlugin, "b")] =
      Except.ok ((markPlugin, "b"), []) ∧
    (∀ d : Ds,
      (∃ e, decide_on_plugin (some d) [] [(markPlugin, "b")] =
        Except.error e) ∨
      (∃ q, decide_on_plugin (some d) [] [(markPlugin, "b")] =
        Except.ok (q, [Event.decide
          ([((markPlugin : Plugin), ("b" : Ctx))].map
            (fun pc => pc.1.name ++ ":" ++ pc.2))
          (d.decide []
            ([((markPlugin : Plugin), ("b" : Ctx))].map
              (fun pc => pc.1.name ++ ":" ++ pc.2)))]))) :=
  arbiter_invocation_condition [] (markPlugin, "b") []

/-- A fan-out-parallel processor whose first plugin's act jumps the phase
and whose second plugin merely records a marker. -/
def procParallelJump : Processor :=
  ⟨[("p-parallel", [jumpPlugin, markPlugin])], none, 5⟩

/-- C1 counterexample: in the single `-parallel` round of
`procParallelJump`, `jumpPlugin` (pid 1) rewrites `_current_phase` to
"zz", yet `markPlugin` (pid 2) — a later candidate of the same round —
still executes: the trace holds `exec 2 "b"` after `exec 1 "a"`. The
phase-jump check therefore does not run after each individual execution
in the parallel policy. -/
theorem parallel_candidate_after_jump_still_runs :
    (apply_all_plugins_on_value procParallelJump 2 2 []).1 =
      [Event.phase "p-parallel", Event.exec 1 "a" true,
       Event.exec 2 "b" true, Event.reward 5] ∧
    Issue.get (jumpPlugin.process
      [("_reward", Val.int 0), ("_current_phase", Val.str "p-parallel")]
      "a").1 "_current_phase" = some (Val.str "zz") := ⟨rfl, rfl⟩

/-- C1 amended: the phase-jump check runs after each round, not after
each individual execution. In the sequential policy a round is a single
execution, so the claim holds there; in a `-parallel` round, every
candidate of the round executes even when an earlier one rewrote
`_current_phase`, and the invocation then ends at round end, returning
control with the new phase recorded in the issue. -/
theorem parallel_jump_checked_after_round
    (ds : Option Ds) (directory : String) (subplugins : List Plugin)
    (fuel : Nat) (issue : Issue) (any_executed : List Cand)
    (p0 : Cand) (ps : List Cand) (cur : Val)
    (hpar : endsWithStr directory "-parallel" = true)
    (hrem : removeExecuted (test_plugins_on_value issue subplugins).1
      any_executed = p0 :: ps)
    (hcur : Issue.get (execAllCands issue any_executed (p0 :: ps)).1
      "_current_phase" = some cur)
    (hne : cur ≠ Val.str directory) :
    roundLoop ds directory subplugins (fuel + 1) issue any_executed =
      ((test_plugins_on_value issue subplugins).2 ++
        (execAllCands issue any_executed (p0 :: ps)).2.2,
       Except.ok (execAllCands issue any_executed (p0 :: ps)).1) ∧
    execPids (execAllCands issue any_executed (p0 :: ps)).2.2 =
      (p0 :: ps).map (fun p => (p.1.pid, p.2)) := by
  rw [roundLoop_par ds directory subplugins fuel issue any_executed p0 ps
    hrem hpar]
  exact ⟨by simp [hcur, hne], execAllCands_pids (p0 :: ps) issue any_executed⟩

/-- Witness for the amended C1 at a concrete input. -/
theorem parallel_jump_checked_after_round_witness :
    roundLoop none "p-parallel" [jumpPlugin, markPlugin] (0 + 1)
      [("_current_phase", Val.str "p-parallel")] [] =
      ((test_plugins_on_value [("_current_phase", Val.str "p-parallel")]
          [jumpPlugin, markPlugin]).2 ++
        (execAllCands [("_current_phase", Val.str "p-parallel")] []
          [(jumpPlugin, "a"), (markPlugin, "b")]).2.2,
       Except.ok (execAllCands [("_current_phase", Val.str "p-parallel")] []
          [(jumpPlugin, "a"), (markPlugin, "b")]).1) ∧
    execPids (execAllCands [("_current_phase", Val.str "p-parallel")] []
        [(jumpPlugin, "a"), (markPlugin, "b")]).2.2 =
      [(jumpPlugin, ("a" : Ctx)), (markPlugin, ("b" : Ctx))].map
        (fun p => (p.1.pid, p.2)) :=
  parallel_jump_checked_after_round none "p-parallel"
    [jumpPlugin, markPlugin] 0 [("_current_phase", Val.str "p-parallel")] []
    (jumpPlugin, "a") [(markPlugin, "b")] (Val.str "zz")
    (by decide) rfl rfl (by decide)

/-- C9: in a `-parallel` phase, every candidate present when the round's
candidate set was built is executed exactly once (in order) before the
next round's candidate set is built: the round's trace segment sits
between the candidate build (which performs no executions) and whatever
the invocation does afterwards. -/
theorem parallel_batch_completeness
    (ds : Option Ds) (directory : String) (subplugins : List Plugin)
    (fuel : Nat) (issue : Issue) (any_executed : List Cand)
    (p0 : Cand) (ps : List Cand)
    (hpar : endsWithStr directory "-parallel" = true)
    (hrem : removeExecuted (test_plugins_on_value issue subplugins).1
      any_executed = p0 :: ps) :
    ∃ tail,
      (roundLoop ds directory subplugins (fuel + 1) issue any_executed).1 =
        (test_plugins_on_value issue subplugins).2 ++
          (execAllCands issue any_executed (p0 :: ps)).2.2 ++ tail ∧
      execPids (execAllCands issue any_executed (p0 :: ps)).2.2 =
        (p0 :: ps).map (fun p => (p.1.pid, p.2)) ∧
      execEvents (test_plugins_on_value issue subplugins).2 = [] := by
  rw [roundLoop_par ds directory subplugins fuel issue any_executed p0 ps
    hrem hpar]
  have hp := execAllCands_pids (p0 :: ps) issue any_executed
  have ht := execEvents_test issue subplugins
  cases hcur : Issue.get (execAllCands issue any_executed (p0 :: ps)).1
      "_current_phase" with
  | none => exact ⟨[], by simp [hcur], hp, ht⟩
  | some cur =>
    by_cases hne : cur = Val.str directory
    · by_cases hlen : (execAllCands issue any_executed (p0 :: ps)).2.1.length
          = any_executed.length
      · exact ⟨[], by simp [hcur, hne, hlen], hp, ht⟩
      · exact ⟨(roundLoop ds directory subplugins fuel
          (execAllCands issue any_executed (p0 :: ps)).1
          (execAllCands issue any_executed (p0 :: ps)).2.1).1,
          by simp [hcur, hne, hlen], hp, ht⟩
    · exact ⟨[], by simp [hcur, hne], hp, ht⟩

/-- Witness for C9 at a concrete input. -/
theorem parallel_batch_completeness_witness :
    ∃ tail,
      (roundLoop none "p-parallel" [jumpPlugin, markPlugin] (0 + 1)
        [("_current_phase", Val.str "p-parallel")] []).1 =
        (test_plugins_on_value [("_current_phase", Val.str "p-parallel")]
          [jumpPlugin, markPlugin]).2 ++
          (execAllCands [("_current_phase", Val.str "p-parallel")] []
            [(jumpPlugin, "a"), (markPlugin, "b")]).2.2 ++ tail ∧
      execPids (execAllCands [("_current_phase", Val.str "p-parallel")] []
          [(jumpPlugin, "a"), (markPlugin, "b")]).2.2 =
        [(jumpPlugin, ("a" : Ctx)), (markPlugin, ("b" : Ctx))].map
          (fun p => (p.1.pid, p.2)) ∧
      execEvents (test_plugins_on_value
        [("_current_phase", Val.str "p-parallel")]
        [jumpPlugin, markPlugin]).2 = [] :=
  parallel_batch_completeness none "p-parallel" [jumpPlugin, markPlugin] 0
    [("_current_phase", Val.str "p-parallel")] [] (jumpPlugin, "a")
    [(markPlugin, "b")] (by decide) rfl

/-- If the inner loop of a phase ends in an uncaught exception, the
exception propagates out of `phaseStep` (the reward line never runs). -/
theorem phaseStep_error (proc : Processor) (dirs : List String) (i : Nat)
    (directory : String) (fuelI : Nat) (issue : Issue) (e : EngineError)
    (herr : (roundLoop proc.ds directory
      (((proc.plugins.find? (fun pr => pr.1 == directory)).map (·.2)).getD [])
      fuelI (Issue.set issue "_current_phase" (Val.str directory)) []).2 =
      Except.error e) :
    phaseStep proc dirs i directory fuelI issue =
      (Event.phase directory ::
        (roundLoop proc.ds directory
          (((proc.plugins.find? (fun pr => pr.1 == directory)).map
            (·.2)).getD [])
          fuelI (Issue.set issue "_current_phase" (Val.str directory)) []).1,
       Except.error e) := by
  simp only [phaseStep]
  rw [herr]

/-- An uncaught exception in `phaseStep` propagates out of the outer loop. -/
theorem outerLoop_step_error (proc : Processor) (dirs : List String)
    (fuelI fuelO i : Nat) (issue : Issue) (directory : String)
    (evs : List Event) (e : EngineError)
    (hdir : dirs[i]? = some directory)
    (hstep : phaseStep proc dirs i directory fuelI issue =
      (evs, Except.error e)) :
    outerLoop proc dirs fuelI (fuelO + 1) i issue = (evs, Except.error e) := by
  simp only [outerLoop, hdir, hstep]

/-- A normally returning `phaseStep` makes the outer loop continue at the
index it computed, with the issue it produced. -/
theorem outerLoop_step_ok (proc : Processor) (dirs : List String)
    (fuelI fuelO i : Nat) (issue issue' : Issue) (directory : String)
    (evs : List Event) (next : Nat)
    (hdir : dirs[i]? = some directory)
    (hstep : phaseStep proc dirs i directory fuelI issue =
      (evs, Except.ok (issue', next))) :
    outerLoop proc dirs fuelI (fuelO + 1) i issue =
      (evs ++ (outerLoop proc dirs fuelI fuelO next issue').1,
       (outerLoop proc dirs fuelI fuelO next issue').2) := by
  simp only [outerLoop, hdir, hstep]

/-- C7: if the decision service's chosen label does not resolve — by exact
match on plugin kind name and stringified context — to a candidate of the
current round, `decide_on_plugin` raises (IndexError on `[...][0]`) instead
of silently picking a candidate, and the exception propagates out of the
whole pass: the outer loop ends in that error and no plugin was executed
in the aborted invocation. -/
theorem arbiter_contract_violation_fatal
    (proc : Processor) (dirs : List String) (i : Nat) (directory : String)
    (subplugins : List Plugin) (d : Ds) (fuelI fuelO : Nat)
    (issue issue1 : Issue) (labels : List String) (D b c : String)
    (p0 : Cand) (ps : List Cand)
    (hds : proc.ds = some d)
    (hdir : dirs[i]? = some directory)
    (hsub : ((proc.plugins.find? (fun pr => pr.1 == directory)).map
      (·.2)).getD [] = subplugins)
    (halt : endsWithStr directory "-alternative" = true)
    (hpar : endsWithStr directory "-parallel" = false)
    (hiss : issue1 = Issue.set issue "_current_phase" (Val.str directory))
    (hrem : removeExecuted (test_plugins_on_value issue1 subplugins).1 []
      = p0 :: ps)
    (hlab : labels = (p0 :: ps).map (fun pc => pc.1.name ++ ":" ++ pc.2))
    (hD : D = d.decide issue1 labels)
    (hsplit : splitColon D = [b, c])
    (hres : (p0 :: ps).filter
      (fun pc => pc.1.name == b && pc.2 == c) = []) :
    decide_on_plugin (some d) issue1 (p0 :: ps) =
      Except.error (EngineError.noMatch D) ∧
    (outerLoop proc dirs (fuelI + 1) (fuelO + 1) i issue).2 =
      Except.error (EngineError.noMatch D) ∧
    execEvents (outerLoop proc dirs (fuelI + 1) (fuelO + 1) i issue).1
      = [] := by
  subst hiss hlab hD
  have hdec : decide_on_plugin (some d)
      (Issue.set issue "_current_phase" (Val.str directory)) (p0 :: ps) =
      Except.error (EngineError.noMatch (d.decide
        (Issue.set issue "_current_phase" (Val.str directory))
        ((p0 :: ps).map (fun pc => pc.1.name ++ ":" ++ pc.2)))) := by
    simp only [decide_on_plugin, hsplit, hres]
  have hrl : roundLoop proc.ds directory subplugins (fuelI + 1)
      (Issue.set issue "_current_phase" (Val.str directory)) [] =
      ((test_plugins_on_value
          (Issue.set issue "_current_phase" (Val.str directory))
          subplugins).2,
       Except.error (EngineError.noMatch (d.decide
        (Issue.set issue "_current_phase" (Val.str directory))
        ((p0 :: ps).map (fun pc => pc.1.name ++ ":" ++ pc.2))))) := by
    rw [roundLoop_alt proc.ds directory subplugins fuelI
      (Issue.set issue "_current_phase" (Val.str directory)) [] p0 ps hrem
      halt hpar, hds, hdec]
  have hps := phaseStep_error proc dirs i directory (fuelI + 1) issue
    (EngineError.noMatch (d.decide
      (Issue.set issue "_current_phase" (Val.str directory))
      ((p0 :: ps).map (fun pc => pc.1.name ++ ":" ++ pc.2))))
    (by rw [hsub, hrl])
  rw [hsub, hrl] at hps
  have hout := outerLoop_step_error proc dirs (fuelI + 1) fuelO i issue
    directory _ _ hdir hps
  refine ⟨hdec, by rw [hout], ?_⟩
  rw [hout]
  simpa [execEvents] using execEvents_test
    (Issue.set issue "_current_phase" (Val.str directory)) subplugins

/-- A decision service that always answers a label naming no candidate. -/
def dsBad : Ds := ⟨fun _ _ => "Z:zz"⟩

/-- An alternative-policy processor wired to `dsBad`. -/
def procBadArbiter : Processor :=
  ⟨[("q-alternative", [markPlugin])], some dsBad, 2⟩

/-- Witness for C7 at a concrete input: `dsBad` answers "Z:zz", which
matches no candidate, and the pass aborts with that error. -/
theorem arbiter_contract_violation_fatal_witness :
    decide_on_plugin (some dsBad)
      [("_current_phase", Val.str "q-alternative")] [(markPlugin, "b")] =
      Except.error (EngineError.noMatch "Z:zz") ∧
    (outerLoop procBadArbiter ["q-alternative"] (0 + 1) (0 + 1) 0 []).2 =
      Except.error (EngineError.noMatch "Z:zz") ∧
    execEvents (outerLoop procBadArbiter ["q-alternative"] (0 + 1) (0 + 1)
      0 []).1 = [] :=
  arbiter_contract_violation_fatal procBadArbiter ["q-alternative"] 0
    "q-alternative" [markPlugin] dsBad 0 0 []
    [("_current_phase", Val.str "q-alternative")] ["Mark:b"] "Z:zz" "Z" "zz"
    (markPlugin, "b") [] rfl rfl rfl (by decide) (by decide) rfl rfl rfl rfl
    rfl rfl

/-- A test failure of one plugin removes only that plugin's candidates;
every other plugin's candidates are unchanged. -/
theorem test_error_isolated (issue : Issue) (ps1 : List Plugin) (p : Plugin)
    (ps2 : List Plugin) (h : p.test issue = Except.error ()) :
    (test_plugins_on_value issue (ps1 ++ p :: ps2)).1 =
      (test_plugins_on_value issue (ps1 ++ ps2)).1 := by
  induction ps1 with
  | nil => simp [test_plugins_on_value, h]
  | cons q rest ih =>
    simp only [List.cons_append, test_plugins_on_value]
    cases q.test issue <;> simp [ih]

/-- C6: plugin exceptions are never pass-fatal. (i) When a plugin's `test`
raises, it contributes no candidates but every other plugin's candidates of
the round are unchanged. (ii) When the executed candidate's `process`
raises in a default-policy round (exec event flagged `false`), the pair is
still appended to the already-run list (so it is not retried) and the loop
continues with the next round: no engine error arises from the exception. -/
theorem plugin_exception_not_fatal
    (ds : Option Ds) (directory : String) (subplugins : List Plugin)
    (fuel : Nat) (issue i' : Issue) (any_executed : List Cand)
    (p0 q : Cand) (ps : List Cand)
    (hpar : endsWithStr directory "-parallel" = false)
    (halt : endsWithStr directory "-alternative" = false)
    (hrem : removeExecuted (test_plugins_on_value issue subplugins).1
      any_executed = p0 :: ps)
    (hq : (p0 :: ps).getLast (List.cons_ne_nil p0 ps) = q)
    (hfail : q.1.process issue q.2 = (i', false))
    (hphase : Issue.get i' "_current_phase" = some (Val.str directory)) :
    (∀ (i2 : Issue) (qs1 : List Plugin) (r : Plugin) (qs2 : List Plugin),
      r.test i2 = Except.error () →
      (test_plugins_on_value i2 (qs1 ++ r :: qs2)).1 =
        (test_plugins_on_value i2 (qs1 ++ qs2)).1) ∧
    roundLoop ds directory subplugins (fuel + 1) issue any_executed =
      ((test_plugins_on_value issue subplugins).2 ++
        [Event.exec q.1.pid q.2 false] ++
        (roundLoop ds directory subplugins fuel i' (any_executed ++ [q])).1,
       (roundLoop ds directory subplugins fuel i'
         (any_executed ++ [q])).2) := by
  refine ⟨fun i2 qs1 r qs2 hr => test_error_isolated i2 qs1 r qs2 hr, ?_⟩
  rw [roundLoop_default ds directory subplugins fuel issue any_executed p0
    ps hrem hpar halt]
  simp [hq, hfail, hphase]

/-- A plugin whose `test` always matches context "c" and whose act always
raises without mutating the issue. -/
def failPlugin : Plugin :=
  ⟨3, "Fail", fun _ => Except.ok ["c"], fun i _ => (i, false)⟩

/-- Witness for C6 at a concrete input: `failPlugin`'s act raises; the
pair is recorded, not retried, and the next round ends the phase cleanly. -/
theorem plugin_exception_not_fatal_witness :
    (∀ (i2 : Issue) (qs1 : List Plugin) (r : Plugin) (qs2 : List Plugin),
      r.test i2 = Except.error () →
      (test_plugins_on_value i2 (qs1 ++ r :: qs2)).1 =
        (test_plugins_on_value i2 (qs1 ++ qs2)).1) ∧
    roundLoop none "10-detect" [failPlugin] (1 + 1)
      [("_current_phase", Val.str "10-detect")] [] =
      ((test_plugins_on_value [("_current_phase", Val.str "10-detect")]
          [failPlugin]).2 ++
        [Event.exec failPlugin.pid "c" false] ++
        (roundLoop none "10-detect" [failPlugin] 1
          [("_current_phase", Val.str "10-detect")]
          ([] ++ [(failPlugin, "c")])).1,
       (roundLoop none "10-detect" [failPlugin] 1
         [("_current_phase", Val.str "10-detect")]
         ([] ++ [(failPlugin, "c")])).2) :=
  plugin_exception_not_fatal none "10-detect" [failPlugin] 1
    [("_current_phase", Val.str "10-detect")]
    [("_current_phase", Val.str "10-detect")] [] (failPlugin, "c")
    (failPlugin, "c") [] (by decide) (by decide) rfl rfl rfl rfl

/-- C5: when a phase invocation ends with `_current_phase` rewritten to
`P ≠ directory`, the outer loop's next index is the index of `P` in the
sorted phase list when `P` occurs there (so the next iteration operates on
`P`, and — by construction of `phaseStep` — with a fresh empty already-run
list), and `current_dirno + 1` when it does not (no error); in either case
the outer loop simply continues at that index with the produced issue. -/
theorem jump_resolution
    (proc : Processor) (dirs : List String) (i : Nat) (directory : String)
    (fuelI fuelO : Nat) (issue issue' : Issue) (next : Nat)
    (evs : List Event) (P : String)
    (hdir : dirs[i]? = some directory)
    (hstep : phaseStep proc dirs i directory fuelI issue =
      (evs, Except.ok (issue', next)))
    (hcur : Issue.get issue' "_current_phase" = some (Val.str P))
    (hne : P ≠ directory) :
    (∀ j, dirs.findIdx? (fun dd => dd == P) = some j →
      next = j ∧ dirs[j]? = some P) ∧
    (dirs.findIdx? (fun dd => dd == P) = none → next = i + 1) ∧
    outerLoop proc dirs fuelI (fuelO + 1) i issue =
      (evs ++ (outerLoop proc dirs fuelI fuelO next issue').1,
       (outerLoop proc dirs fuelI fuelO next issue').2) := by
  have hnext : next = (dirs.findIdx? (fun dd => dd == P)).getD (i + 1) := by
    simp only [phaseStep] at hstep
    split at hstep
    · simp at hstep
    · split at hstep
      · rename_i issue1 n
        split at hstep
        · rename_i hget
          simp only [Prod.mk.injEq, Except.ok.injEq] at hstep
          obtain ⟨-, h2⟩ := hstep
          simp at h2
        · rename_i cur hget
          split at hstep
          · rename_i heq
            simp only [Prod.mk.injEq, Except.ok.injEq] at hstep
            obtain ⟨-, h2, h3⟩ := hstep
            subst h2
            rw [hget] at hcur
            injection hcur with hc
            rw [heq] at hc
            injection hc with hc2
            exact absurd hc2.symm hne
          · simp only [Prod.mk.injEq, Except.ok.injEq] at hstep
            obtain ⟨-, h2, h3⟩ := hstep
            subst h2
            rw [hget] at hcur
            injection hcur with hc
            subst hc
            exact h3.symm
      · simp at hstep
  refine ⟨fun j hj => ?_, fun hj => ?_, ?_⟩
  · refine ⟨by rw [hnext, hj]; rfl, ?_⟩
    obtain ⟨hlt, hp, -⟩ := List.findIdx?_eq_some_iff_getElem.mp hj
    rw [List.getElem?_eq_getElem hlt]
    exact congrArg some (eq_of_beq hp)
  · rw [hnext, hj]
    rfl
  · exact outerLoop_step_ok proc dirs fuelI fuelO i issue issue' directory
      evs next hdir hstep

/-- A plugin whose act jumps the issue to phase "20-b". -/
def jump20Plugin : Plugin :=
  ⟨4, "Jump20", fun _ => Except.ok ["a"],
    fun i _ => (Issue.set i "_current_phase" (Val.str "20-b"), true)⟩

/-- A plugin that never matches. -/
def neverPlugin : Plugin :=
  ⟨5, "Never", fun _ => Except.ok [], fun i _ => (i, true)⟩

/-- A two-phase processor whose first phase jumps to the second. -/
def procJump : Processor :=
  ⟨[("10-a", [jump20Plugin]), ("20-b", [neverPlugin])], none, 1⟩

/-- Witness for C5 at a concrete input: the jump target "20-b" resolves to
index 1 of the phase list. -/
theorem jump_resolution_witness :
    (∀ j, (["10-a", "20-b"] : List String).findIdx?
        (fun dd => dd == "20-b") = some j →
      1 = j ∧ (["10-a", "20-b"] : List String)[j]? = some "20-b") ∧
    ((["10-a", "20-b"] : List String).findIdx?
        (fun dd => dd == "20-b") = none → 1 = 0 + 1) ∧
    outerLoop procJump ["10-a", "20-b"] 1 (2 + 1) 0 [("_reward", Val.int 0)] =
      ([Event.phase "10-a", Event.exec 4 "a" true, Event.reward 1] ++
        (outerLoop procJump ["10-a", "20-b"] 1 2 1
          [("_reward", Val.int 1), ("_current_phase", Val.str "20-b")]).1,
       (outerLoop procJump ["10-a", "20-b"] 1 2 1
         [("_reward", Val.int 1), ("_current_phase", Val.str "20-b")]).2) :=
  jump_resolution procJump ["10-a", "20-b"] 0 "10-a" 1 2
    [("_reward", Val.int 0)]
    [("_reward", Val.int 1), ("_current_phase", Val.str "20-b")] 1
    [Event.phase "10-a", Event.exec 4 "a" true, Event.reward 1] "20-b"
    rfl rfl rfl (by decide)

/-- Events the inner loop may emit (no `phase`, no `reward`). -/
def isInnerEvent : Event → Bool
  | Event.exec _ _ _ => true
  | Event.testErr _ => true
  | Event.decide _ _ => true
  | _ => false

theorem test_events_inner (issue : Issue) (ps : List Plugin) :
    ∀ e ∈ (test_plugins_on_value issue ps).2, isInnerEvent e = true := by
  induction ps with
  | nil => simp [test_plugins_on_value]
  | cons p rest ih =>
    intro e he
    simp only [test_plugins_on_value] at he
    cases hts : p.test issue with
    | ok ctxs =>
      rw [hts] at he
      exact ih e he
    | error u =>
      rw [hts] at he
      rcases List.mem_cons.mp he with rfl | he
      · rfl
      · exact ih e he

theorem execAll_events_inner (l : List Cand) :
    ∀ issue any, ∀ e ∈ (execAllCands issue any l).2.2,
      isInnerEvent e = true := by
  induction l with
  | nil => simp [execAllCands]
  | cons p rest ih =>
    intro issue any e he
    simp only [execAllCands, execute_plugin_with_context] at he
    rcases List.mem_cons.mp he with rfl | he
    · rfl
    · exact ih _ _ e he

theorem decide_events_inner (ds : Option Ds) (issue : Issue)
    (possible : List Cand) (q : Cand) (evs : List Event)
    (h : decide_on_plugin ds issue possible = Except.ok (q, evs)) :
    ∀ e ∈ evs, isInnerEvent e = true := by
  cases possible with
  | nil => simp [decide_on_plugin] at h
  | cons p0 ps =>
    cases ds with
    | none =>
      simp [decide_on_plugin] at h
      simp [h.2]
    | some d =>
      simp only [decide_on_plugin] at h
      split at h
      · split at h
        · simp at h
        · simp only [Except.ok.injEq, Prod.mk.injEq] at h
          rw [← h.2]
          intro e he
          rcases List.mem_singleton.mp he with rfl
          rfl
      · simp at h

/-- The inner loop emits only `exec`, `testErr` and `decide` events. -/
theorem roundLoop_events_inner (ds : Option Ds) (directory : String)
    (subplugins : List Plugin) :
    ∀ fuel issue any, ∀ e ∈ (roundLoop ds directory subplugins fuel issue
      any).1, isInnerEvent e = true := by
  intro fuel
  induction fuel with
  | zero => simp [roundLoop]
  | succ n ih =>
    intro issue any e he
    cases hrem : removeExecuted (test_plugins_on_value issue subplugins).1
        any with
    | nil =>
      rw [roundLoop_empty ds directory subplugins n issue any hrem] at he
      exact test_events_inner issue subplugins e he
    | cons p0 ps =>
      by_cases hpar : endsWithStr directory "-parallel" = true
      · cases hcur : Issue.get (execAllCands issue any (p0 :: ps)).1
            "_current_phase" with
        | none =>
          have htr : (roundLoop ds directory subplugins (n + 1) issue
              any).1 = (test_plugins_on_value issue subplugins).2 ++
              (execAllCands issue any (p0 :: ps)).2.2 := by
            rw [roundLoop_par ds directory subplugins n issue any p0 ps
              hrem hpar]
            simp [hcur]
          rw [htr] at he
          rcases List.mem_append.mp he with he | he
          · exact test_events_inner issue subplugins e he
          · exact execAll_events_inner (p0 :: ps) issue any e he
        | some cur =>
          by_cases hne : cur = Val.str directory
          · by_cases hlen : (execAllCands issue any (p0 :: ps)).2.1.length
                = any.length
            · have htr : (roundLoop ds directory subplugins (n + 1) issue
                  any).1 = (test_plugins_on_value issue subplugins).2 ++
                  (execAllCands issue any (p0 :: ps)).2.2 := by
                rw [roundLoop_par ds directory subplugins n issue any p0 ps
                  hrem hpar]
                simp [hcur, hne, hlen]
              rw [htr] at he
              rcases List.mem_append.mp he with he | he
              · exact test_events_inner issue subplugins e he
              · exact execAll_events_inner (p0 :: ps) issue any e he
            · have htr : (roundLoop ds directory subplugins (n + 1) issue
                  any).1 = ((test_plugins_on_value issue subplugins).2 ++
                  (execAllCands issue any (p0 :: ps)).2.2) ++
                  (roundLoop ds directory subplugins n
                    (execAllCands issue any (p0 :: ps)).1
                    (execAllCands issue any (p0 :: ps)).2.1).1 := by
                rw [roundLoop_par ds directory subplugins n issue any p0 ps
                  hrem hpar]
                simp [hcur, hne, hlen]
              rw [htr] at he
              rcases List.mem_append.mp he with he | he
              · rcases List.mem_append.mp he with he | he
                · exact test_events_inner issue subplugins e he
                · exact execAll_events_inner (p0 :: ps) issue any e he
              · exact ih _ _ e he
          · have htr : (roundLoop ds directory subplugins (n + 1) issue
                any).1 = (test_plugins_on_value issue subplugins).2 ++
                (execAllCands issue any (p0 :: ps)).2.2 := by
              rw [roundLoop_par ds directory subplugins n issue any p0 ps
                hrem hpar]
              simp [hcur, hne]
            rw [htr] at he
            rcases List.mem_append.mp he with he | he
            · exact test_events_inner issue subplugins e he
            · exact execAll_events_inner (p0 :: ps) issue any e he
      · by_cases halt : endsWithStr directory "-alternative" = true
        · rw [roundLoop_alt ds directory subplugins n issue any p0 ps hrem
            halt (by simpa using hpar)] at he
          cases hdec : decide_on_plugin ds issue (p0 :: ps) with
          | error err =>
            simp only [hdec] at he
            exact test_events_inner issue subplugins e he
          | ok pev =>
            obtain ⟨p, evD⟩ := pev
            simp only [hdec] at he
            rcases List.mem_append.mp he with he | he
            · rcases List.mem_append.mp he with he | he
              · exact test_events_inner issue subplugins e he
              · exact decide_events_inner ds issue (p0 :: ps) p evD hdec e he
            · rcases List.mem_singleton.mp he with rfl
              rfl
        · set q := (p0 :: ps).getLast (List.cons_ne_nil p0 ps) with hq
          cases hcur : Issue.get (q.1.process issue q.2).1
              "_current_phase" with
          | none =>
            have htr : (roundLoop ds directory subplugins (n + 1) issue
                any).1 = (test_plugins_on_value issue subplugins).2 ++
                [Event.exec q.1.pid q.2 (q.1.process issue q.2).2] := by
              rw [roundLoop_default ds directory subplugins n issue any p0
                ps hrem (by simpa using hpar) (by simpa using halt)]
              simp [← hq, hcur]
            rw [htr] at he
            rcases List.mem_append.mp he with he | he
            · exact test_events_inner issue subplugins e he
            · rcases List.mem_singleton.mp he with rfl
              rfl
          | some cur =>
            by_cases hne : cur = Val.str directory
            · have htr : (roundLoop ds directory subplugins (n + 1) issue
                  any).1 = ((test_plugins_on_value issue subplugins).2 ++
                  [Event.exec q.1.pid q.2 (q.1.process issue q.2).2]) ++
                  (roundLoop ds directory subplugins n
                    (q.1.process issue q.2).1 (any ++ [q])).1 := by
                rw [roundLoop_default ds directory subplugins n issue any p0
                  ps hrem (by simpa using hpar) (by simpa using halt)]
                simp [← hq, hcur, hne]
              rw [htr] at he
              rcases List.mem_append.mp he with he | he
              · rcases List.mem_append.mp he with he | he
                · exact test_events_inner issue subplugins e he
                · rcases List.mem_singleton.mp he with rfl
                  rfl
              · exact ih _ _ e he
            · have htr : (roundLoop ds directory subplugins (n + 1) issue
                  any).1 = (test_plugins_on_value issue subplugins).2 ++
                  [Event.exec q.1.pid q.2 (q.1.process issue q.2).2] := by
                rw [roundLoop_default ds directory subplugins n issue any p0
                  ps hrem (by simpa using hpar) (by simpa using halt)]
                simp [← hq, hcur, hne]
              rw [htr] at he
              rcases List.mem_append.mp he with he | he
              · exact test_events_inner issue subplugins e he
              · rcases List.mem_singleton.mp he with rfl
                rfl

theorem rewardEvents_of_inner (evs : List Event)
    (h : ∀ e ∈ evs, isInnerEvent e = true) : rewardEvents evs = [] := by
  rw [rewardEvents, List.filterMap_eq_nil_iff]
  intro e he
  have := h e he
  cases e <;> simp_all [isInnerEvent]

theorem phaseEvents_of_inner (evs : List Event)
    (h : ∀ e ∈ evs, isInnerEvent e = true) : phaseEvents evs = [] := by
  rw [phaseEvents, List.filterMap_eq_nil_iff]
  intro e he
  have := h e he
  cases e <;> simp_all [isInnerEvent]

/-- If every plugin of the phase preserves a key of the issue, the inner
loop preserves it too (whatever the policy and however rounds end). -/
theorem roundLoop_preserves (ds : Option Ds) (directory : String)
    (subplugins : List Plugin) (key : String)
    (hkey : ∀ p ∈ subplugins, ∀ i c,
      Issue.get ((p.process i c).1) key = Issue.get i key) :
    ∀ fuel issue any i',
      (roundLoop ds directory subplugins fuel issue any).2 = Except.ok i' →
      Issue.get i' key = Issue.get issue key := by
  have hexec : ∀ (l : List Cand), (∀ p ∈ l, p.1 ∈ subplugins) →
      ∀ issue any, Issue.get (execAllCands issue any l).1 key =
        Issue.get issue key := by
    intro l
    induction l with
    | nil => intro _ issue any; rfl
    | cons p rest ih =>
      intro hmem issue any
      simp only [execAllCands, execute_plugin_with_context]
      rw [ih (fun r hr => hmem r (List.mem_cons_of_mem _ hr)) _ _]
      exact hkey p.1 (hmem p (List.mem_cons_self _ _)) issue p.2
  have hposs : ∀ (issue : Issue) (any : List Cand) (p0 : Cand)
      (ps : List Cand),
      removeExecuted (test_plugins_on_value issue subplugins).1 any
        = p0 :: ps →
      ∀ p ∈ p0 :: ps, p.1 ∈ subplugins := by
    intro issue any p0 ps hrem p hp
    have hsub := (removeExecuted_sublist
      (test_plugins_on_value issue subplugins).1 any).subset
    rw [hrem] at hsub
    exact test_mem issue subplugins p (hsub hp)
  intro fuel
  induction fuel with
  | zero =>
    intro issue any i' h
    simp [roundLoop] at h
  | succ n ih =>
    intro issue any i' h
    cases hrem : removeExecuted (test_plugins_on_value issue subplugins).1
        any with
    | nil =>
      rw [roundLoop_empty ds directory subplugins n issue any hrem] at h
      simp only [Except.ok.injEq] at h
      rw [← h]
    | cons p0 ps =>
      by_cases hpar : endsWithStr directory "-parallel" = true
      · rw [roundLoop_par ds directory subplugins n issue any p0 ps hrem
          hpar] at h
        have hpr := hexec (p0 :: ps) (hposs issue any p0 ps hrem) issue any
        cases hcur : Issue.get (execAllCands issue any (p0 :: ps)).1
            "_current_phase" with
        | none => simp [hcur] at h
        | some cur =>
          by_cases hne : cur = Val.str directory
          · by_cases hlen : (execAllCands issue any (p0 :: ps)).2.1.length
                = any.length
            · simp only [hcur, hne, hlen] at h
              simp at h
              rw [← h]
              exact hpr
            · simp only [hcur, hne, hlen] at h
              simp [hlen] at h
              rw [ih _ _ i' h]
              exact hpr
          · simp only [hcur] at h
            simp [hne] at h
            rw [← h]
            exact hpr
      · by_cases halt : endsWithStr directory "-alternative" = true
        · rw [roundLoop_alt ds directory subplugins n issue any p0 ps hrem
            halt (by simpa using hpar)] at h
          cases hdec : decide_on_plugin ds issue (p0 :: ps) with
          | error err => simp [hdec] at h
          | ok pev =>
            obtain ⟨p, evD⟩ := pev
            simp only [hdec] at h
            simp at h
            rw [← h]
            exact hkey p.1
              (hposs issue any p0 ps hrem p
                (decide_on_plugin_mem ds issue (p0 :: ps) p evD hdec))
              issue p.2
        · rw [roundLoop_default ds directory subplugins n issue any p0 ps
            hrem (by simpa using hpar) (by simpa using halt)] at h
          set q := (p0 :: ps).getLast (List.cons_ne_nil p0 ps) with hq
          have hqmem : q.1 ∈ subplugins :=
            hposs issue any p0 ps hrem q (List.getLast_mem _)
          cases hcur : Issue.get (q.1.process issue q.2).1
              "_current_phase" with
          | none =>
            simp [hcur] at h
          | some cur =>
            by_cases hne : cur = Val.str directory
            · by_cases hlen : any.length + 1 = any.length
              · exact absurd hlen (Nat.succ_ne_self _)
              · simp only [hcur, hne, hlen] at h
                simp [hlen] at h
                rw [ih _ _ i' h]
                exact hkey q.1 hqmem issue q.2
            · simp only [hcur] at h
              simp [hne] at h
              rw [← h]
              exact hkey q.1 hqmem issue q.2

/-- One phase invocation that returns normally adds exactly `auto_reward`
to `_reward` (provided the plugins leave `_reward` alone), and its trace
holds exactly one `reward` event (the new value) and one `phase` event. -/
theorem phaseStep_analysis (proc : Processor) (dirs : List String) (i : Nat)
    (directory : String) (fuelI : Nat) (issue issue' : Issue) (next : Nat)
    (evs : List Event) (n : Int)
    (hkey : ∀ ph ∈ proc.plugins, ∀ p ∈ ph.2, ∀ i2 c,
      Issue.get ((p.process i2 c).1) "_reward" = Issue.get i2 "_reward")
    (hrew : Issue.get issue "_reward" = some (Val.int n))
    (hok : phaseStep proc dirs i directory fuelI issue =
      (evs, Except.ok (issue', next))) :
    Issue.get issue' "_reward" = some (Val.int (n + proc.auto_reward)) ∧
    rewardEvents evs = [n + proc.auto_reward] ∧
    phaseEvents evs = [directory] := by
  have hkeyD : ∀ p ∈ ((proc.plugins.find? (fun pr => pr.1 == directory)).map
      (·.2)).getD [], ∀ i2 c,
      Issue.get ((p.process i2 c).1) "_reward" = Issue.get i2 "_reward" := by
    cases hf : proc.plugins.find? (fun pr => pr.1 == directory) with
    | none => simp
    | some pr =>
      simp only [Option.map_some', Option.getD_some]
      exact hkey pr (List.mem_of_find?_eq_some hf)
  simp only [phaseStep] at hok
  split at hok
  · simp at hok
  · rename_i issue1 hrl
    have hpres : Issue.get issue1 "_reward" = some (Val.int n) := by
      rw [roundLoop_preserves proc.ds directory _ "_reward" hkeyD fuelI
        (Issue.set issue "_current_phase" (Val.str directory)) [] issue1 hrl]
      rw [Issue.get_set_ne issue "_current_phase" "_reward" _ (by decide)]
      exact hrew
    split at hok
    · rename_i m hm
      rw [hpres] at hm
      injection hm with hm
      injection hm with hm
      subst hm
      have hinner := roundLoop_events_inner proc.ds directory
        (((proc.plugins.find? (fun pr => pr.1 == directory)).map
          (·.2)).getD []) fuelI
        (Issue.set issue "_current_phase" (Val.str directory)) []
      split at hok
      · simp at hok
      · rename_i cur hcur
        split at hok <;>
        · simp only [Prod.mk.injEq, Except.ok.injEq] at hok
          obtain ⟨hevs, hiss, -⟩ := hok
          subst hiss
          refine ⟨Issue.get_set_self issue1 "_reward" _, ?_, ?_⟩
          · rw [← hevs]
            simp only [rewardEvents, List.filterMap_cons, List.filterMap_append]
            simp
            intro a ha
            have hia := hinner a ha
            cases a <;> simp_all [isInnerEvent]
          · rw [← hevs]
            simp only [phaseEvents, List.filterMap_cons, List.filterMap_append]
            simp
            intro a ha
            have hia := hinner a ha
            cases a <;> simp_all [isInnerEvent]
    · rename_i hm
      exact absurd hok (by simp)

/-- The successive `_reward` values produced by `k` phase invocations that
each add `auto`, starting from `n`. -/
def rewardSeq (n auto : Int) : Nat → List Int
  | 0 => []
  | k + 1 => (n + auto) :: rewardSeq (n + auto) auto k

/-- With a nonnegative increment the reward values never decrease. -/
theorem rewardSeq_chain (auto : Int) (hauto : 0 ≤ auto) :
    ∀ (k : Nat) (n : Int), List.Chain' (· ≤ ·) (n :: rewardSeq n auto k) := by
  intro k
  induction k with
  | zero => intro n; simp [rewardSeq]
  | succ m ih =>
    intro n
    rw [rewardSeq]
    exact List.Chain'.cons (by linarith) (ih (n + auto))

/-- Outer-loop reward accounting: starting from `_reward = n`, a normal
return leaves `_reward = n + auto_reward * (number of phase invocations)`,
and the per-phase additions record the values
`n + auto, n + 2*auto, ...` in order. -/
theorem outerLoop_reward (proc : Processor) (dirs : List String)
    (fuelI : Nat)
    (hkey : ∀ ph ∈ proc.plugins, ∀ p ∈ ph.2, ∀ i2 c,
      Issue.get ((p.process i2 c).1) "_reward" = Issue.get i2 "_reward") :
    ∀ fuelO i issue n issue'',
      Issue.get issue "_reward" = some (Val.int n) →
      (outerLoop proc dirs fuelI fuelO i issue).2 = Except.ok issue'' →
      Issue.get issue'' "_reward" = some (Val.int (n + proc.auto_reward *
        ((phaseEvents (outerLoop proc dirs fuelI fuelO i issue).1).length
          : Int))) ∧
      rewardEvents (outerLoop proc dirs fuelI fuelO i issue).1 =
        rewardSeq n proc.auto_reward
          (phaseEvents (outerLoop proc dirs fuelI fuelO i issue).1).length := by
  intro fuelO
  induction fuelO with
  | zero =>
    intro i issue n issue'' hn hok
    simp [outerLoop] at hok
  | succ m ih =>
    intro i issue n issue'' hn hok
    cases hdir : dirs[i]? with
    | none =>
      have hout : outerLoop proc dirs fuelI (m + 1) i issue =
          ([], Except.ok issue) := by
        simp [outerLoop, hdir]
      rw [hout] at hok ⊢
      simp only [Except.ok.injEq] at hok
      subst hok
      simp [phaseEvents, rewardEvents, rewardSeq, hn]
    | some directory =>
      cases hstep : phaseStep proc dirs i directory fuelI issue with
      | mk evs out =>
        cases out with
        | error e =>
          rw [outerLoop_step_error proc dirs fuelI m i issue directory evs
            e hdir hstep] at hok
          simp at hok
        | ok s =>
          obtain ⟨issue', next⟩ := s
          have hre := outerLoop_step_ok proc dirs fuelI m i issue issue'
            directory evs next hdir hstep
          rw [hre] at hok ⊢
          obtain ⟨hrew', hrevs, hpevs⟩ := phaseStep_analysis proc dirs i
            directory fuelI issue issue' next evs n hkey hn hstep
          obtain ⟨h1, h2⟩ := ih next issue' (n + proc.auto_reward) issue''
            hrew' (by simpa using hok)
          constructor
          · rw [h1]
            congr 2
            rw [phaseEvents_append, hpevs]
            simp only [List.singleton_append, List.length_cons]
            push_cast
            ring
          · rw [rewardEvents_append, hrevs, h2, phaseEvents_append, hpevs]
            simp only [List.singleton_append, List.length_cons]
            rw [rewardSeq]

/-- C4: during a pass, `_reward` starts at 0 and — provided the plugins
leave `_reward` alone, as the engine's ownership of the field intends —
ends at `auto_reward * (number of phase invocations)`: the per-phase
addition runs exactly once per phase invocation (even when zero candidates
matched), recording the values `auto, 2*auto, ...` in order, which are
non-decreasing whenever the configured increment is nonnegative. -/
theorem reward_accounting (proc : Processor) (fuelO fuelI : Nat)
    (issue0 issue' : Issue)
    (hpres : ∀ ph ∈ proc.plugins, ∀ p ∈ ph.2, ∀ i2 c,
      Issue.get ((p.process i2 c).1) "_reward" = Issue.get i2 "_reward")
    (hok : (apply_all_plugins_on_value proc fuelO fuelI issue0).2 =
      Except.ok issue') :
    Issue.get issue' "_reward" = some (Val.int (proc.auto_reward *
      ((phaseEvents (apply_all_plugins_on_value proc fuelO fuelI
        issue0).1).length : Int))) ∧
    rewardEvents (apply_all_plugins_on_value proc fuelO fuelI issue0).1 =
      rewardSeq 0 proc.auto_reward
        (phaseEvents (apply_all_plugins_on_value proc fuelO fuelI
          issue0).1).length ∧
    (0 ≤ proc.auto_reward → List.Chain' (· ≤ ·)
      ((0 : Int) :: rewardEvents (apply_all_plugins_on_value proc fuelO
        fuelI issue0).1)) := by
  have h0 : Issue.get (Issue.set issue0 "_reward" (Val.int 0)) "_reward" =
      some (Val.int 0) := Issue.get_set_self issue0 "_reward" (Val.int 0)
  simp only [apply_all_plugins_on_value] at hok ⊢
  obtain ⟨h1, h2⟩ := outerLoop_reward proc
    (sortStrings (proc.plugins.map Prod.fst)) fuelI hpres fuelO 0
    (Issue.set issue0 "_reward" (Val.int 0)) 0 issue' h0 hok
  refine ⟨by simpa using h1, h2, fun hauto => ?_⟩
  rw [h2]
  exact rewardSeq_chain proc.auto_reward hauto _ 0

/-- Witness for C4 at a concrete input: two phase invocations with
increment 1 leave `_reward = 2` and record the values `[1, 2]`. -/
theorem reward_accounting_witness :
    Issue.get [("_reward", Val.int 2), ("_current_phase", Val.str "20-b")]
      "_reward" = some (Val.int (procJump.auto_reward *
      ((phaseEvents (apply_all_plugins_on_value procJump 3 1 []).1).length
        : Int))) ∧
    rewardEvents (apply_all_plugins_on_value procJump 3 1 []).1 =
      rewardSeq 0 procJump.auto_reward
        (phaseEvents (apply_all_plugins_on_value procJump 3 1 []).1).length ∧
    (0 ≤ procJump.auto_reward → List.Chain' (· ≤ ·)
      ((0 : Int) :: rewardEvents (apply_all_plugins_on_value procJump 3 1
        []).1)) :=
  reward_accounting procJump 3 1 []
    [("_reward", Val.int 2), ("_current_phase", Val.str "20-b")]
    (by
      intro ph hph p hp i2 c
      simp only [procJump, List.mem_cons, List.not_mem_nil, or_false] at hph
      rcases hph with rfl | rfl
      · simp only [List.mem_singleton] at hp
        subst hp
        exact Issue.get_set_ne i2 "_current_phase" "_reward" _ (by decide)
      · simp only [List.mem_singleton] at hp
        subst hp
        rfl)
    rfl

theorem candEq_self (q : Cand) : candEq q q = true := by
  simp [candEq]

/-- When every plugin's `test` ignores the issue, the candidate build is
issue-independent. -/
theorem test_constant (subplugins : List Plugin) (issue0 : Issue)
    (htest : ∀ p ∈ subplugins, ∀ i2 : Issue, p.test i2 = p.test issue0) :
    ∀ issue, test_plugins_on_value issue subplugins =
      test_plugins_on_value issue0 subplugins := by
  induction subplugins with
  | nil => intro issue; rfl
  | cons p rest ih =>
    intro issue
    have hp := htest p (List.mem_cons_self _ _) issue
    have ihr := ih (fun r hr => htest r (List.mem_cons_of_mem _ hr)) issue
    simp only [test_plugins_on_value, hp, ihr]

theorem removeExecuted_append_singleton (t any : List Cand) (q : Cand) :
    removeExecuted t (any ++ [q]) =
      (removeExecuted t any).eraseP (fun b => candEq q b) := by
  simp [removeExecuted, List.foldl_append]

/-- The general induction behind C8: in a default-policy phase with
issue-independent, duplicate-free tests whose acts keep `_current_phase`
fixed, an invocation with `k` not-yet-executed candidates terminates
normally within `k + 1` rounds, executing exactly `k` candidates. -/
theorem roundLoop_default_const (ds : Option Ds) (directory : String)
    (subplugins : List Plugin) (issue0 : Issue)
    (hpar : endsWithStr directory "-parallel" = false)
    (halt : endsWithStr directory "-alternative" = false)
    (htest : ∀ p ∈ subplugins, ∀ i2 : Issue, p.test i2 = p.test issue0)
    (hphase : ∀ p ∈ subplugins, ∀ i2 c,
      Issue.get ((p.process i2 c).1) "_current_phase" =
        Issue.get i2 "_current_phase") :
    ∀ (k : Nat) (any : List Cand) (issue : Issue),
      Issue.get issue "_current_phase" = some (Val.str directory) →
      (removeExecuted (test_plugins_on_value issue0 subplugins).1
        any).length = k →
      (∃ i', (roundLoop ds directory subplugins (k + 1) issue any).2 =
        Except.ok i') ∧
      execCount (roundLoop ds directory subplugins (k + 1) issue any).1
        = k := by
  intro k
  induction k with
  | zero =>
    intro any issue hcur hlen
    rw [List.length_eq_zero] at hlen
    have hrem : removeExecuted (test_plugins_on_value issue subplugins).1
        any = [] := by
      rw [test_constant subplugins issue0 htest issue]
      exact hlen
    rw [roundLoop_empty ds directory subplugins 0 issue any hrem]
    exact ⟨⟨issue, rfl⟩, execCount_test issue subplugins⟩
  | succ k ih =>
    intro any issue hcur hlen
    cases hP : removeExecuted (test_plugins_on_value issue0 subplugins).1
        any with
    | nil => rw [hP] at hlen; simp at hlen
    | cons p0 ps =>
      have hrem : removeExecuted (test_plugins_on_value issue subplugins).1
          any = p0 :: ps := by
        rw [test_constant subplugins issue0 htest issue]
        exact hP
      set q := (p0 :: ps).getLast (List.cons_ne_nil p0 ps) with hq
      have hqmem : q ∈ p0 :: ps := List.getLast_mem _
      have hqsub : q.1 ∈ subplugins := by
        have hsubl := (removeExecuted_sublist
          (test_plugins_on_value issue0 subplugins).1 any).subset
        rw [hP] at hsubl
        exact test_mem issue0 subplugins q (hsubl hqmem)
      have hcur1 : Issue.get ((q.1.process issue q.2).1) "_current_phase" =
          some (Val.str directory) := by
        rw [hphase q.1 hqsub issue q.2]
        exact hcur
      have hlen' : (removeExecuted
          (test_plugins_on_value issue0 subplugins).1
          (any ++ [q])).length = k := by
        rw [removeExecuted_append_singleton, hP]
        rw [List.length_eraseP_of_mem hqmem (candEq_self q)]
        rw [hP] at hlen
        simpa using congrArg (fun m => m - 1) hlen
      obtain ⟨⟨i', hok⟩, hcount⟩ := ih (any ++ [q])
        ((q.1.process issue q.2).1) hcur1 hlen'
      have htr : roundLoop ds directory subplugins (k + 1 + 1) issue any =
          (((test_plugins_on_value issue subplugins).2 ++
            [Event.exec q.1.pid q.2 (q.1.process issue q.2).2]) ++
            (roundLoop ds directory subplugins (k + 1)
              (q.1.process issue q.2).1 (any ++ [q])).1,
           (roundLoop ds directory subplugins (k + 1)
             (q.1.process issue q.2).1 (any ++ [q])).2) := by
        rw [roundLoop_default ds directory subplugins (k + 1) issue any p0
          ps hrem hpar halt]
        simp [← hq, hcur1, Nat.succ_ne_self]
      rw [htr]
      refine ⟨⟨i', hok⟩, ?_⟩
      rw [execCount_append, execCount_append, execCount_test,
        execCount_exec_single, hcount]
      omega

/-- A plugin whose constant `test` yields the same context twice. -/
def dupPlugin : Plugin :=
  ⟨9, "Dup", fun _ => Except.ok ["a", "a"], fun i _ => (i, true)⟩

/-- A plugin that matches "x" only until the issue carries a "done" field. -/
def fadePlugin : Plugin :=
  ⟨10, "Fade",
    fun i => if Issue.get i "done" = none then Except.ok ["x"]
      else Except.ok [],
    fun i _ => (i, true)⟩

/-- A plugin whose act records the "done" field. -/
def setDonePlugin : Plugin :=
  ⟨11, "SetDone", fun _ => Except.ok ["y"],
    fun i _ => (Issue.set i "done" (Val.int 1), true)⟩

/-- A plugin whose act jumps the issue to phase "zz". -/
def jumpZPlugin : Plugin :=
  ⟨12, "JumpZ", fun _ => Except.ok ["e"],
    fun i _ => (Issue.set i "_current_phase" (Val.str "zz"), true)⟩

/-- An issue already inside the default-policy phase "10-detect". -/
def detectIssue : Issue := [("_current_phase", Val.str "10-detect")]

/-- C8 counterexample: three default-policy invocations inside the claim's
premise (finitely many plugins whose test results never introduce new
(plugin, context) pairs after the first round) where the number of
executing rounds differs from the number of distinct pairs that ever
matched.
(a) `dupPlugin`'s constant test yields the context "a" twice: the single
distinct pair `(9, "a")` is executed in two rounds, because
`possible.remove` strips only one occurrence per already-run entry —
2 rounds ≠ 1 distinct pair.
(b) `fadePlugin`'s match `(10, "x")` disappears (without being executed)
once `setDonePlugin`'s act has run, and round 2 matches only the already
known pair `(11, "y")` — 1 executing round ≠ 2 distinct matched pairs.
(c) `jumpZPlugin`'s act rewrites `_current_phase`, ending the invocation
after its first round — 1 executing round ≠ 2 distinct matched pairs. -/
theorem seq_rounds_differ_from_distinct_pairs :
    ((∀ i2 : Issue, dupPlugin.test i2 = Except.ok ["a", "a"]) ∧
     (test_plugins_on_value detectIssue [dupPlugin]).1.map
       (fun p => (p.1.pid, p.2)) = [(9, "a"), (9, "a")] ∧
     roundLoop none "10-detect" [dupPlugin] 3 detectIssue [] =
       ([Event.exec 9 "a" true, Event.exec 9 "a" true],
        Except.ok detectIssue)) ∧
    ((test_plugins_on_value detectIssue [fadePlugin, setDonePlugin]).1.map
       (fun p => (p.1.pid, p.2)) = [(10, "x"), (11, "y")] ∧
     (test_plugins_on_value (setDonePlugin.process detectIssue "y").1
       [fadePlugin, setDonePlugin]).1.map (fun p => (p.1.pid, p.2)) =
       [(11, "y")] ∧
     execPids (roundLoop none "10-detect" [fadePlugin, setDonePlugin] 2
       detectIssue []).1 = [(11, "y")] ∧
     (roundLoop none "10-detect" [fadePlugin, setDonePlugin] 2
       detectIssue []).2 =
       Except.ok [("_current_phase", Val.str "10-detect"),
         ("done", Val.int 1)]) ∧
    ((∀ i2 : Issue, markPlugin.test i2 = Except.ok ["b"]) ∧
     (∀ i2 : Issue, jumpZPlugin.test i2 = Except.ok ["e"]) ∧
     (test_plugins_on_value detectIssue [markPlugin, jumpZPlugin]).1.map
       (fun p => (p.1.pid, p.2)) = [(2, "b"), (12, "e")] ∧
     roundLoop none "10-detect" [markPlugin, jumpZPlugin] 2 detectIssue []
       = ([Event.exec 12 "e" true],
          Except.ok [("_current_phase", Val.str "zz")])) :=
  ⟨⟨fun _ => rfl, rfl, rfl⟩, ⟨rfl, rfl, rfl, rfl⟩,
   ⟨fun _ => rfl, fun _ => rfl, rfl, rfl⟩⟩

/-- C8 as amended: a default (exhaustive-sequential) phase invocation
terminates after one executing round per distinct matched pair provided
the matches are stable (issue-independent `test` results), duplicate-free
(pairwise-distinct pairs, so the candidate list enumerates the distinct
pairs that ever match), and the acts leave `_current_phase` alone; the
counterexample shows each proviso is necessary. Under them the invocation
returns normally within `(number of matched pairs) + 1` rounds, its trace
recording exactly one execution per distinct matched pair (the executing
rounds of the default policy run one candidate each). -/
theorem exhaustive_sequential_termination
    (ds : Option Ds) (directory : String) (subplugins : List Plugin)
    (issue0 : Issue)
    (hpar : endsWithStr directory "-parallel" = false)
    (halt : endsWithStr directory "-alternative" = false)
    (htest : ∀ p ∈ subplugins, ∀ i2 : Issue, p.test i2 = p.test issue0)
    (hnodup : List.Pairwise (fun a b => candEq a b = false)
      (test_plugins_on_value issue0 subplugins).1)
    (hphase : ∀ p ∈ subplugins, ∀ i2 c,
      Issue.get ((p.process i2 c).1) "_current_phase" =
        Issue.get i2 "_current_phase")
    (hcur : Issue.get issue0 "_current_phase" = some (Val.str directory)) :
    (∃ i', (roundLoop ds directory subplugins
      ((test_plugins_on_value issue0 subplugins).1.length + 1) issue0
      []).2 = Except.ok i') ∧
    execCount (roundLoop ds directory subplugins
      ((test_plugins_on_value issue0 subplugins).1.length + 1) issue0
      []).1 = (test_plugins_on_value issue0 subplugins).1.length ∧
    List.Pairwise (fun a b => candEq a b = false)
      (test_plugins_on_value issue0 subplugins).1 := by
  obtain ⟨h1, h2⟩ := roundLoop_default_const ds directory subplugins issue0
    hpar halt htest hphase
    (test_plugins_on_value issue0 subplugins).1.length [] issue0 hcur
    (by rw [removeExecuted_nil])
  exact ⟨h1, h2, hnodup⟩

/-- Witness for C8 at a concrete input: two constant-test plugins, two
matched pairs, two executions, normal termination. -/
theorem exhaustive_sequential_termination_witness :
    (∃ i', (roundLoop none "10-detect" [markPlugin, failPlugin]
      ((test_plugins_on_value [("_current_phase", Val.str "10-detect")]
        [markPlugin, failPlugin]).1.length + 1)
      [("_current_phase", Val.str "10-detect")] []).2 = Except.ok i') ∧
    execCount (roundLoop none "10-detect" [markPlugin, failPlugin]
      ((test_plugins_on_value [("_current_phase", Val.str "10-detect")]
        [markPlugin, failPlugin]).1.length + 1)
      [("_current_phase", Val.str "10-detect")] []).1 =
      (test_plugins_on_value [("_current_phase", Val.str "10-detect")]
        [markPlugin, failPlugin]).1.length ∧
    List.Pairwise (fun a b => candEq a b = false)
      (test_plugins_on_value [("_current_phase", Val.str "10-detect")]
        [markPlugin, failPlugin]).1 :=
  exhaustive_sequential_termination none "10-detect"
    [markPlugin, failPlugin] [("_current_phase", Val.str "10-detect")]
    (by decide) (by decide)
    (by
      intro p hp i2
      simp only [List.mem_cons, List.not_mem_nil, or_false] at hp
      rcases hp with rfl | rfl <;> rfl)
    (by
      refine List.Pairwise.cons ?_ ?_
      · intro b hb
        simp [test_plugins_on_value, markPlugin, failPlugin] at hb
        rw [hb]
        rfl
      · refine List.Pairwise.cons ?_ List.Pairwise.nil
        intro b hb
        simp [test_plugins_on_value, markPlugin, failPlugin] at hb)
    (by
      intro p hp i2 c
      simp only [List.mem_cons, List.not_mem_nil, or_false] at hp
      rcases hp with rfl | rfl
      · exact Issue.get_set_ne i2 "ranMark" "_current_phase" _ (by decide)
      · rfl)
    rfl
